import Mathlib

/-!
Verification development for the headline-normalization and price/news
alignment pipeline of `src/data/clean_and_merge_data.py`.

Strings are modelled as `List Char` (Python strings are sequences of Unicode
code points).  The module-level compiled regular expressions of the source
(`URL_PATTERN`, `TICKER_PATTERN`, `SPECIAL_CHAR_PATTERN`, `WHITESPACE_PATTERN`,
`HTML_TAG_PATTERN`) are embedded as purpose-built scanners implementing the
leftmost-match, scan-and-substitute semantics of `re.sub` for those exact
patterns.  The Python standard-library dependencies (`html.unescape`,
`unicodedata.normalize('NFKD', ...)`) are embedded for the fragment exercised
by this repository's data, as documented on their definitions.
-/

/-- Python's `\s` (and `str.isspace`) character set in `re.UNICODE` mode. -/
def pyIsSpace (c : Char) : Bool :=
  let n := c.toNat
  (9 ≤ n && n ≤ 13) || n == 32 || (28 ≤ n && n ≤ 31) || n == 133 || n == 160 ||
  n == 0x1680 || (0x2000 ≤ n && n ≤ 0x200A) || n == 0x2028 || n == 0x2029 ||
  n == 0x202F || n == 0x205F || n == 0x3000

/-- Python's `\w` word-character class, restricted to the ASCII fragment
(letters, digits, underscore).  Non-ASCII letters and digits, which Python
would also accept, do not occur in the inputs this development evaluates;
every universally quantified theorem about the cleaning pipeline restricts
itself to ASCII inputs. -/
def pyIsWord (c : Char) : Bool :=
  c.isAlphanum || c == '_'

/-- The inclusive emoji code-point ranges hard-coded in `_is_emoji`
(`clean_and_merge_data.py`, lines 188-252), in source order. -/
def emoji_ranges : List (Nat × Nat) :=
  [(0x1F600, 0x1F64F), (0x1F300, 0x1F5FF), (0x1F680, 0x1F6FF), (0x1F1E0, 0x1F1FF),
   (0x2600, 0x26FF), (0x2700, 0x27BF), (0xFE00, 0xFE0F), (0x1F900, 0x1F9FF),
   (0x1FA00, 0x1FA6F), (0x1FA70, 0x1FAFF), (0x231A, 0x231B), (0x23E9, 0x23F3),
   (0x23F8, 0x23FA), (0x25AA, 0x25AB), (0x25B6, 0x25B6), (0x25C0, 0x25C0),
   (0x25FB, 0x25FE), (0x2614, 0x2615), (0x2648, 0x2653), (0x267F, 0x267F),
   (0x2693, 0x2693), (0x26A1, 0x26A1), (0x26AA, 0x26AB), (0x26BD, 0x26BE),
   (0x26C4, 0x26C5), (0x26CE, 0x26CE), (0x26D4, 0x26D4), (0x26EA, 0x26EA),
   (0x26F2, 0x26F3), (0x26F5, 0x26F5), (0x26FA, 0x26FA), (0x26FD, 0x26FD),
   (0x2702, 0x2702), (0x2705, 0x2705), (0x2708, 0x270D), (0x270F, 0x270F),
   (0x2712, 0x2712), (0x2714, 0x2714), (0x2716, 0x2716), (0x271D, 0x271D),
   (0x2721, 0x2721), (0x2728, 0x2728), (0x2733, 0x2734), (0x2744, 0x2744),
   (0x2747, 0x2747), (0x274C, 0x274C), (0x274E, 0x274E), (0x2753, 0x2755),
   (0x2757, 0x2757), (0x2763, 0x2764), (0x2795, 0x2797), (0x27A1, 0x27A1),
   (0x27B0, 0x27B0), (0x27BF, 0x27BF), (0x2934, 0x2935), (0x2B05, 0x2B07),
   (0x2B1B, 0x2B1C), (0x2B50, 0x2B50), (0x2B55, 0x2B55), (0x3030, 0x3030),
   (0x303D, 0x303D), (0x3297, 0x3297), (0x3299, 0x3299)]

/-- `_is_emoji`: a single code point is an emoji iff it falls in one of the
tabulated inclusive ranges. -/
def is_emoji (c : Char) : Bool :=
  emoji_ranges.any (fun r => r.1 ≤ c.toNat && c.toNat ≤ r.2)

/-- `unicodedata.normalize('NFKD', ...)`, embedded per code point for the
fragment exercised here: ASCII characters and the emoji blocks have no
compatibility decomposition and map to themselves; the table lists the
decomposing code points this development touches (no-break space, one-dot
leader, fi-ligature).  Strings needing canonical reordering of combining
marks are outside the modelled fragment. -/
def nfkdChar (c : Char) : List Char :=
  match c.toNat with
  | 0xA0 => [' ']
  | 0x2024 => ['.']
  | 0xFB01 => ['f', 'i']
  | _ => [c]

/-- NFKD normalization of a whole string (code-point-wise). -/
def nfkd (l : List Char) : List Char :=
  (l.map nfkdChar).flatten

/-- The explicit punctuation allow-list of `SPECIAL_CHAR_PATTERN`
(the pattern keeps word characters, whitespace and exactly these marks). -/
def allowPunct : List Char :=
  ['.', ',', '!', '?', '\'', '"', '-', ':', ';', '(', ')', '[', ']',
   '{', '}', '/', '\\', '@', '#', '%', '&', '*', '+',
   '=', '<', '>', '|', '~', '`']

/-- A character survives `SPECIAL_CHAR_PATTERN.sub('', ...)` iff it is a word
character, whitespace, or in the punctuation allow-list. -/
def keepChar (c : Char) : Bool :=
  pyIsWord c || pyIsSpace c || allowPunct.contains c

/-- `HTML_TAG_PATTERN.sub(' ', ...)` for the pattern `<[^>]+>`: each leftmost
match (a `<`, one or more non-`>` characters, then `>`) is replaced by a
single space.  Fuel-indexed scanner; the wrapper supplies fuel equal to the
string length, which one-or-more characters of progress per step never
exhausts. -/
def stripTagsAux : Nat → List Char → List Char
  | 0, l => l
  | _ + 1, [] => []
  | n + 1, c :: rest =>
    if c == '<' then
      let run := rest.takeWhile (fun d => d != '>')
      if run.isEmpty then c :: stripTagsAux n rest
      else
        match rest.drop run.length with
        | _ :: rest2 => ' ' :: stripTagsAux n rest2
        | [] => c :: stripTagsAux n rest
    else c :: stripTagsAux n rest

/-- Step 1 of `clean_headline`: strip HTML tags. -/
def stripTags (l : List Char) : List Char :=
  stripTagsAux l.length l

/-- The HTML5 named-character-reference table of `html.unescape`, restricted
to the references exercised by this repository (`amp`, `lt`, `gt`, `quot`,
`apos`, `nbsp`, each also in its semicolon-less form where the HTML5 table
has one; `apos` requires the semicolon, as in the HTML5 table). -/
def entityTable : List (String × String) :=
  [("amp;", "&"), ("amp", "&"), ("lt;", "<"), ("lt", "<"),
   ("gt;", ">"), ("gt", ">"), ("quot;", "\""), ("quot", "\""),
   ("apos;", "'"),
   ("nbsp;", " "), ("nbsp", " ")]

/-- Lookup of a candidate entity name (with optional trailing semicolon). -/
def entLookup (s : List Char) : Option (List Char) :=
  (entityTable.find? (fun e => e.1.data == s)).map (fun e => e.2.data)

/-- CPython `html._replace_charref` fallback: try the longest strict prefix
(of length `x`, then `x-1`, ..., down to 2) present in the table and append
the unconsumed remainder. -/
def entFallback (s : List Char) : Nat → Option (List Char)
  | 0 => none
  | 1 => none
  | x + 1 =>
    match entLookup (s.take (x + 1)) with
    | some v => some (v ++ s.drop (x + 1))
    | none => entFallback s x

/-- CPython `html._replace_charref` on a matched name group: exact lookup,
else longest-prefix fallback, else the text is kept with its `&`. -/
def replaceCharref (s : List Char) : List Char :=
  match entLookup s with
  | some v => v
  | none =>
    match entFallback s (s.length - 1) with
    | some v => v
    | none => '&' :: s

/-- Characters allowed in an entity name by `html.unescape`'s regular
expression (`[^\t\n\f <&#;]`). -/
def entNameChar (c : Char) : Bool :=
  !(c == '\t' || c == '\n' || c == '\x0c' || c == ' ' || c == '<' ||
    c == '&' || c == '#' || c == ';')

/-- `html.unescape`, embedded for named character references: at each `&`,
up to 32 name characters are matched, a trailing `;` is included when the
name run is not truncated, and `replaceCharref` resolves the reference.
Numeric character references (`&#...`) do not occur in this repository's
data and are outside the modelled fragment (the `&` passes through). -/
def unescapeAux : Nat → List Char → List Char
  | 0, l => l
  | _ + 1, [] => []
  | n + 1, c :: rest =>
    if c == '&' then
      let run := rest.takeWhile entNameChar
      if run.isEmpty then c :: unescapeAux n rest
      else
        let name := run.take 32
        let matched :=
          if run.length ≤ 32 then
            match rest.drop run.length with
            | ';' :: _ => name ++ [';']
            | _ => name
          else name
        replaceCharref matched ++ unescapeAux n (rest.drop matched.length)
    else c :: unescapeAux n rest

/-- Step 2 of `clean_headline`: `html.unescape`. -/
def htmlUnescape (l : List Char) : List Char :=
  unescapeAux l.length l

/-- Case-insensitive test against `h`/`H` (for the `re.IGNORECASE` scheme). -/
def ciH (c : Char) : Bool := c == 'h' || c == 'H'
/-- Case-insensitive test against `t`/`T`. -/
def ciT (c : Char) : Bool := c == 't' || c == 'T'
/-- Case-insensitive test against `p`/`P`. -/
def ciP (c : Char) : Bool := c == 'p' || c == 'P'
/-- Case-insensitive test against `s`/`S`. -/
def ciS (c : Char) : Bool := c == 's' || c == 'S'
/-- Case-insensitive test against `w`/`W`. -/
def ciW (c : Char) : Bool := c == 'w' || c == 'W'

/-- Match the `https?://` scheme of `URL_PATTERN` (case-insensitive, greedy
optional `s`) at the head of the input; returns the remainder. -/
def schemeRest (l : List Char) : Option (List Char) :=
  match l with
  | c1 :: c2 :: c3 :: c4 :: rest =>
    if ciH c1 && ciT c2 && ciT c3 && ciP c4 then
      match rest with
      | s :: ':' :: '/' :: '/' :: r => if ciS s then some r else none
      | ':' :: '/' :: '/' :: r => some r
      | _ => none
    else none
  | _ => none

/-- Match the `www.` alternative of `URL_PATTERN` (case-insensitive) at the
head of the input; returns the remainder. -/
def wwwRest (l : List Char) : Option (List Char) :=
  match l with
  | w1 :: w2 :: w3 :: '.' :: r =>
    if ciW w1 && ciW w2 && ciW w3 then some r else none
  | _ => none

/-- ASCII hexadecimal digit (for the `%[\da-fA-F]{2}` escape unit). -/
def isHexDigit (c : Char) : Bool :=
  c.isDigit || ('a' ≤ c && c ≤ 'f') || ('A' ≤ c && c ≤ 'F')

/-- Whether the body group `(?:[-\w.]|(?:%[\da-fA-F]{2}))+` of `URL_PATTERN`
can match at least one unit at the head of the input. -/
def urlBodyOk : List Char → Bool
  | [] => false
  | '%' :: a :: b :: _ => isHexDigit a && isHexDigit b
  | c :: _ => pyIsWord c || c == '-' || c == '.'

/-- A `URL_PATTERN` match at the head of the input: a scheme (tried first)
or `www.`, at least one body unit, then greedily everything up to the next
whitespace (`[^\s]*` subsumes the body units).  Returns the remainder after
the match. -/
def urlMatchRest (l : List Char) : Option (List Char) :=
  match schemeRest l with
  | some r => if urlBodyOk r then some (r.dropWhile (fun c => !pyIsSpace c)) else none
  | none =>
    match wwwRest l with
    | some r => if urlBodyOk r then some (r.dropWhile (fun c => !pyIsSpace c)) else none
    | none => none

/-- `URL_PATTERN.sub('', ...)`: leftmost matches are deleted. -/
def urlSubAux : Nat → List Char → List Char
  | 0, l => l
  | _ + 1, [] => []
  | n + 1, c :: rest =>
    match urlMatchRest (c :: rest) with
    | some r => urlSubAux n r
    | none => c :: urlSubAux n rest

/-- Step 3 of `clean_headline`: remove URLs. -/
def urlSub (l : List Char) : List Char :=
  urlSubAux l.length l

/-- A `TICKER_PATTERN` (`\$[A-Za-z]{1,5}\b`) match at the head of the input:
`$`, a maximal run of one to five ASCII letters, then a word boundary.
Returns the remainder after the match. -/
def tickerMatchRest (l : List Char) : Option (List Char) :=
  match l with
  | '$' :: rest =>
    let letters := rest.takeWhile Char.isAlpha
    let m := letters.length
    if 1 ≤ m && m ≤ 5 then
      match rest.drop m with
      | [] => some []
      | c :: cs => if pyIsWord c then none else some (c :: cs)
    else none
  | _ => none

/-- `TICKER_PATTERN.sub('', ...)`: leftmost matches are deleted. -/
def tickerSubAux : Nat → List Char → List Char
  | 0, l => l
  | _ + 1, [] => []
  | n + 1, c :: rest =>
    match tickerMatchRest (c :: rest) with
    | some r => tickerSubAux n r
    | none => c :: tickerSubAux n rest

/-- Step 4 of `clean_headline`: remove ticker symbols. -/
def tickerSub (l : List Char) : List Char :=
  tickerSubAux l.length l

/-- `WHITESPACE_PATTERN.sub(' ', ...)` for `\s+`: each maximal whitespace run
becomes a single space. -/
def collapseWs : List Char → List Char
  | [] => []
  | [c] => if pyIsSpace c then [' '] else [c]
  | c :: d :: rest =>
    if pyIsSpace c && pyIsSpace d then collapseWs (d :: rest)
    else (if pyIsSpace c then ' ' else c) :: collapseWs (d :: rest)

/-- Python `str.strip()`: drop leading and trailing whitespace. -/
def pyStrip (l : List Char) : List Char :=
  ((l.dropWhile pyIsSpace).reverse.dropWhile pyIsSpace).reverse

/-- Python `str.lower()`, ASCII fragment (the `lowercase` option defaults to
false and is exercised only on ASCII inputs here). -/
def pyLowerChar (c : Char) : Char := c.toLower

/-- The named boolean options of `clean_headline` with their source
defaults. -/
structure CleanOptions where
  remove_urls : Bool := true
  remove_html_entities : Bool := true
  remove_emojis : Bool := true
  remove_special_chars : Bool := true
  normalize_whitespace : Bool := true
  strip_whitespace : Bool := true
  remove_tickers : Bool := true
  lowercase : Bool := false
  remove_html_tags : Bool := true
deriving DecidableEq

/-- The ordered eight-stage cleaning pipeline of `clean_headline`
(lines 117-165), applied to a non-empty, non-whitespace string. -/
def runPipeline (opts : CleanOptions) (l : List Char) : List Char :=
  let r1 := if opts.remove_html_tags then stripTags l else l
  let r2 := if opts.remove_html_entities then htmlUnescape r1 else r1
  let r3 := if opts.remove_urls then urlSub r2 else r2
  let r4 := if opts.remove_tickers then tickerSub r3 else r3
  let r5 :=
    if opts.remove_emojis || opts.remove_special_chars then
      let rn := nfkd r4
      let re := if opts.remove_emojis then rn.filter (fun c => !is_emoji c) else rn
      if opts.remove_special_chars then re.filter keepChar else re
    else r4
  let r6 := if opts.normalize_whitespace then collapseWs r5 else r5
  let r7 := if opts.strip_whitespace then pyStrip r6 else r6
  if opts.lowercase then r7.map pyLowerChar else r7

/-- The dynamically-typed `text` argument of `clean_headline`, resolved at
the boundary: Python `None`; a NaN-like missing sentinel (`pd.isna` true);
a string; a non-string value carrying its `str()` form; or a value whose
`str()` raises. -/
inductive RawText where
  | null : RawText
  | nanValue : RawText
  | str : String → RawText
  | other : String → RawText
  | unstringifiable : RawText
deriving DecidableEq

/-- The guarded body of `clean_headline` on an actual string: empty or
all-whitespace input short-circuits to the empty string, otherwise the
pipeline runs. -/
def cleanStr (opts : CleanOptions) (s : String) : String :=
  if s.data.all pyIsSpace then "" else String.mk (runPipeline opts s.data)

/-- `clean_headline` (lines 44-165): `None` and NaN sentinels yield `""`;
non-strings are stringified and yield `""` when the stringified form is the
case-insensitive literal `nan` or when stringification fails; then the
empty/whitespace guard and the eight-stage pipeline. -/
def clean_headline (text : RawText) (opts : CleanOptions) : String :=
  match text with
  | .null => ""
  | .nanValue => ""
  | .unstringifiable => ""
  | .other s => if s.toLower == "nan" then "" else cleanStr opts s
  | .str s => cleanStr opts s

/-- Sanity check (spec §8 dollar-amount example): the ticker pattern needs
letters, so `100` survives; the lone `$` falls to the special-character
stage. -/
theorem dollar_amount_example :
    clean_headline (.str "Stock hits $100 target") {} = "Stock hits 100 target" := by
  decide

/-- A date-like value as accepted by `normalize_date`: a null/missing
sentinel (`None`, `NaN`, `NaT` — `pd.isna` true); a parseable point-in-time
value carrying the canonical calendar-day index it truncates to, its
time-of-day and an optional zone offset (actual datetime parsing is the
pandas dependency `pd.to_datetime`); or an unparseable value carrying its
`str()` form. -/
inductive DateVal where
  | null : DateVal
  | stamp : Nat → Nat → Option Int → DateVal
  | bad : String → DateVal
deriving DecidableEq

/-- `pd.isna` on a date-like value. -/
def DateVal.isNa : DateVal → Bool
  | .null => true
  | _ => false

/-- `normalize_date` (lines 330-368): null sentinels yield `NaT` (modelled
`none`); a parseable value has its zone offset dropped (truncated, not
converted) and its time-of-day truncated, yielding the calendar day; an
unparseable value yields `NaT` under `errors="coerce"` and raises
`ValueError` naming the offending value under `errors="raise"`. -/
def normalize_date (date_value : DateVal) (errors : String) :
    Except String (Option Nat) :=
  match date_value with
  | .null => .ok none
  | .stamp day _time _tz => .ok (some day)
  | .bad r =>
    if errors == "raise" then .error ("Cannot normalize date: " ++ r)
    else .ok none

/-- `normalize_date` in coerce mode, which never raises (the `.error` arm is
unreachable). -/
def normalize_date_coerce (v : DateVal) : Option Nat :=
  match normalize_date v "coerce" with
  | .ok o => o
  | .error _ => none

/-- One row of the price DataFrame.  The numeric fields are modelled as
rationals (`float64` content is carried through the pipeline, never computed
on); `none` models a NaN/null cell.  The embedding restricts price
DataFrames to ones carrying the full required column set, so the
missing-column arm of the validator cannot fire. -/
structure PriceRow where
  date : DateVal
  ticker : Option String
  «open» : Option Rat
  high : Option Rat
  low : Option Rat
  close : Option Rat
  volume : Option Int
deriving DecidableEq

/-- One row of the news DataFrame (`date`, `headline`; the optional `source`
and `ticker` columns are never read by the algorithm and are omitted). -/
structure NewsRow where
  date : DateVal
  headline : RawText
deriving DecidableEq

/-- The `price_data` argument: Python `None` or a DataFrame with the
required price columns. -/
inductive PriceInput where
  | null : PriceInput
  | table : List PriceRow → PriceInput
deriving DecidableEq

/-- The `news_data` argument: Python `None` or a DataFrame with the required
news columns. -/
inductive NewsInput where
  | null : NewsInput
  | table : List NewsRow → NewsInput
deriving DecidableEq

/-- `validate_price_dataframe` (lines 261-295): `None` is invalid; an empty
DataFrame is valid; a non-empty one must hold no NaN in `date` or `ticker`
(the required columns are present by construction of `PriceRow`). -/
def validate_price_dataframe (df : PriceInput) : Bool × Option String :=
  match df with
  | .null => (false, some "Price DataFrame is None")
  | .table [] => (true, none)
  | .table rows =>
    if rows.any (fun r => r.date.isNa) then
      (false, some "NaN values found in column 'date'")
    else if rows.any (fun r => r.ticker.isNone) then
      (false, some "NaN values found in column 'ticker'")
    else (true, none)

/-- `validate_news_dataframe` (lines 298-327): `None` is invalid; any
DataFrame carrying the required columns (guaranteed by `NewsRow`) is
valid. -/
def validate_news_dataframe (df : NewsInput) : Bool × Option String :=
  match df with
  | .null => (false, some "News DataFrame is None")
  | .table _ => (true, none)

/-- One row of the per-date news aggregation produced by
`groupby(date).agg(headlines=list, headline_count=count)`. -/
structure AggRow where
  date : Nat
  headlines : List String
  headline_count : Int
deriving DecidableEq

/-- Insert a date into an ascending duplicate-free list (pandas `groupby`
sorts its keys). -/
def insertSortedU (x : Nat) : List Nat → List Nat
  | [] => [x]
  | y :: ys =>
    if x < y then x :: y :: ys
    else if x = y then y :: ys
    else y :: insertSortedU x ys

/-- The distinct dates of the surviving news rows, ascending. -/
def sortedUniqueDates (l : List Nat) : List Nat :=
  l.foldr insertSortedU []

/-- `groupby(date_column)` aggregation over the surviving news rows
(date, cleaned headline): one output row per distinct date, `headlines` in
original row order (stable grouping), `headline_count` the group size. -/
def aggregate_news (rows : List (Nat × String)) : List AggRow :=
  (sortedUniqueDates (rows.map Prod.fst)).map fun d =>
    let hs := (rows.filter (fun rc => rc.1 == d)).map Prod.snd
    ⟨d, hs, (hs.length : Int)⟩

/-- A merged row before the missing-news fill: the normalized date, the
price fields, and the news columns attached by the left join (`none` models
the NaN a non-matching left join leaves). -/
structure RawMergedRow where
  date : Nat
  ticker : Option String
  «open» : Option Rat
  high : Option Rat
  low : Option Rat
  close : Option Rat
  volume : Option Int
  headlines : Option (List String)
  headline_count : Option Int
deriving DecidableEq

/-- A price row with its normalized date (the surviving rows of step 3). -/
structure NormPriceRow where
  date : Nat
  ticker : Option String
  «open» : Option Rat
  high : Option Rat
  low : Option Rat
  close : Option Rat
  volume : Option Int
deriving DecidableEq

/-- Steps 3 of `clean_and_merge_data`: normalize every price date in coerce
mode and drop the rows whose date failed to normalize. -/
def normalizePriceRows (rows : List PriceRow) : List NormPriceRow :=
  rows.filterMap fun r =>
    match normalize_date_coerce r.date with
    | none => none
    | some d => some ⟨d, r.ticker, r.«open», r.high, r.low, r.close, r.volume⟩

/-- One driving price row of the left join: paired with every aggregation
row of equal date, or kept once with NaN news columns when no date
matches. -/
def joinRow (agg : List AggRow) (p : NormPriceRow) : List RawMergedRow :=
  match agg.filter (fun a => a.date == p.date) with
  | [] => [⟨p.date, p.ticker, p.«open», p.high, p.low, p.close, p.volume, none, none⟩]
  | ms => ms.map fun a =>
      ⟨p.date, p.ticker, p.«open», p.high, p.low, p.close, p.volume,
       some a.headlines, some a.headline_count⟩

/-- `price_df.merge(aggregated_news, on=date_column, how="left")`: the price
rows drive, in order. -/
def left_merge (price : List NormPriceRow) (agg : List AggRow) :
    List RawMergedRow :=
  (price.map (joinRow agg)).flatten

/-- Step 6 of `clean_and_merge_data`: replace a non-list `headlines` cell by
the empty list and a NaN `headline_count` by 0. -/
def fillRow (r : RawMergedRow) : RawMergedRow :=
  { r with
    headlines := some (r.headlines.getD [])
    headline_count := some (r.headline_count.getD 0) }

/-- One row of the final merged DataFrame, after type enforcement:
`ticker` is text (`astype(str)` renders a NaN ticker as "nan"), `volume`
and `headline_count` are `int64`, `headlines` is list-typed. -/
structure MergedRow where
  date : Nat
  ticker : String
  «open» : Option Rat
  high : Option Rat
  low : Option Rat
  close : Option Rat
  volume : Int
  headlines : List String
  headline_count : Int
deriving DecidableEq

/-- The exact output column order (step 7 and the empty-input schema). -/
def output_columns : List String :=
  ["date", "ticker", "open", "high", "low", "close", "volume",
   "headlines", "headline_count"]

/-- The merged DataFrame: its column list and its rows. -/
structure MergedTable where
  cols : List String
  rows : List MergedRow
deriving DecidableEq

/-- Step 7 of `clean_and_merge_data`: enforce output types.  Converting the
`volume` column to `int64` raises when any cell is NaN (pandas refuses
non-finite to integer); the float, text and `int64` `headline_count`
conversions cannot fail on this data (`headline_count` was filled to a
number in step 6, so its cell is present). -/
def enforceTypes : List RawMergedRow → Except String (List MergedRow)
  | [] => .ok []
  | r :: rest =>
    match r.volume with
    | none => .error "Cannot convert non-finite values (NA or inf) to integer"
    | some v =>
      match enforceTypes rest with
      | .error e => .error e
      | .ok rs =>
        .ok (⟨r.date, r.ticker.getD "nan", r.«open», r.high, r.low,
              r.close, v, r.headlines.getD [], r.headline_count.getD 0⟩ :: rs)

/-- Step 8 of `clean_and_merge_data`: output validation.  No NaN in the five
price columns (`volume` is `int64` after step 7 and cannot hold NaN), no
negative `headline_count`, every `headlines` cell list-typed (guaranteed by
the fill of step 6; the `isinstance` check is the constantly-true test on a
list-typed cell). -/
def validateOut (t : MergedTable) : Except String MergedTable :=
  if t.rows.any (fun r => r.«open».isNone) then
    .error "NaN values found in output column 'open'"
  else if t.rows.any (fun r => r.high.isNone) then
    .error "NaN values found in output column 'high'"
  else if t.rows.any (fun r => r.low.isNone) then
    .error "NaN values found in output column 'low'"
  else if t.rows.any (fun r => r.close.isNone) then
    .error "NaN values found in output column 'close'"
  else if t.rows.any (fun _ => false) then
    .error "NaN values found in output column 'volume'"
  else if t.rows.any (fun r => r.headline_count < 0) then
    .error "Negative headline_count values found"
  else if !(t.rows.all (fun _ => true)) then
    .error "headlines column must contain lists"
  else .ok t

/-- Step 1 of `clean_and_merge_data`: input validation (when enabled),
raising `ValueError` with the validator's diagnostic. -/
def inputCheck (validate_inputs : Bool) (price_data : PriceInput)
    (news_data : NewsInput) : Option String :=
  if validate_inputs then
    match validate_price_dataframe price_data with
    | (false, msg) => some ("Invalid price_data: " ++ msg.getD "")
    | _ =>
      match validate_news_dataframe news_data with
      | (false, msg) => some ("Invalid news_data: " ++ msg.getD "")
      | _ => none
  else none

/-- Step 4 of `clean_and_merge_data` on a non-empty news copy: normalize
dates in coerce mode dropping failures, clean every headline, keep the rows
whose cleaned headline is non-empty, then aggregate by date (an empty
survivor set yields the empty aggregation, as in the source's explicit
empty branch). -/
def processNews (clean_options : CleanOptions) (rows : List NewsRow) :
    List AggRow :=
  let nn := rows.filterMap fun r =>
    match normalize_date_coerce r.date with
    | none => none
    | some d => some (d, r.headline)
  let cleaned := nn.map fun dr => (dr.1, clean_headline dr.2 clean_options)
  let kept := cleaned.filter fun dc => dc.2.length > 0
  aggregate_news kept

/-- Line 487 of the source: the news copy is an empty DataFrame when the
caller passed `None` or an empty table, else a copy of the caller's rows. -/
def newsCopyRows (news_data : NewsInput) : List NewsRow :=
  match news_data with
  | .null => []
  | .table rs => rs

/-- Step 4 dispatch of `clean_and_merge_data`: an empty news copy yields the
empty aggregation, otherwise the news is processed and aggregated. -/
def aggregatedNews (clean_options : CleanOptions) (news_data : NewsInput) :
    List AggRow :=
  match newsCopyRows news_data with
  | [] => []
  | rs => processNews clean_options rs

/-- Steps 3-8 of `clean_and_merge_data` on a non-empty price table that
passed input validation: normalize and filter the price dates, aggregate
the news, left-join, fill missing news, enforce types, and validate the
output when enabled. -/
def mergeCore (priceRows : List PriceRow) (news_data : NewsInput)
    (clean_options : CleanOptions) (validate_outputs : Bool) :
    Except String MergedTable :=
  match enforceTypes ((left_merge (normalizePriceRows priceRows)
      (aggregatedNews clean_options news_data)).map fillRow) with
  | .error e => .error e
  | .ok finalRows =>
    if validate_outputs then validateOut ⟨output_columns, finalRows⟩
    else .ok ⟨output_columns, finalRows⟩

/-- `clean_and_merge_data` (lines 371-600) with default column names:
validate inputs (when enabled); short-circuit a null or empty price table
to the empty table with the exact output schema; copy, normalize dates and
drop failures; clean, filter and aggregate the news; left-join onto the
price rows; fill missing news; enforce column order and types; validate the
output (when enabled). -/
def clean_and_merge_data (price_data : PriceInput) (news_data : NewsInput)
    (clean_options : CleanOptions) (validate_inputs : Bool)
    (validate_outputs : Bool) : Except String MergedTable :=
  match inputCheck validate_inputs price_data news_data with
  | some e => .error e
  | none =>
    match price_data with
    | .null => .ok ⟨output_columns, []⟩
    | .table [] => .ok ⟨output_columns, []⟩
    | .table priceRows =>
      mergeCore priceRows news_data clean_options validate_outputs

/-- The entry point seen by the caller: the result together with the
caller's two DataFrame objects after the call.  The body operates on copies
(`price_df = price_data.copy()`, `news_df = news_data.copy()`); the
caller-owned objects are never written, so they are returned as passed. -/
def clean_and_merge_data_call (price_data : PriceInput)
    (news_data : NewsInput) (clean_options : CleanOptions)
    (validate_inputs : Bool) (validate_outputs : Bool) :
    Except String MergedTable × PriceInput × NewsInput :=
  (clean_and_merge_data price_data news_data clean_options validate_inputs
    validate_outputs, price_data, news_data)

/-- C9: `normalize_date` raises a domain error naming the offending value
under `errors="raise"` on an unparseable input, returns the null-date
sentinel (`NaT`, modelled `none`) on the same inputs under
`errors="coerce"` and never raises in coerce mode, and maps a null/missing
input to the null-date sentinel without error in both modes. -/
theorem claim_C9_normalize_date_error_modes :
    (∀ r : String,
      normalize_date (.bad r) "raise" = .error ("Cannot normalize date: " ++ r)) ∧
    (∀ r : String, normalize_date (.bad r) "coerce" = .ok none) ∧
    (∀ v : DateVal, ∃ o : Option Nat, normalize_date v "coerce" = .ok o) ∧
    normalize_date .null "raise" = .ok none ∧
    normalize_date .null "coerce" = .ok none := by
  refine ⟨fun r => rfl, fun r => rfl, fun v => ?_, rfl, rfl⟩
  cases v with
  | null => exact ⟨none, rfl⟩
  | stamp d t z => exact ⟨some d, rfl⟩
  | bad r => exact ⟨none, rfl⟩

/-- C10: `clean_headline` is total by construction (its codomain is
`String`; every dynamically-typed input is resolved at the boundary), and
`None`, NaN-like sentinels, non-strings stringifying to the
case-insensitive literal "nan", and values whose stringification fails all
yield exactly the empty string under default options. -/
theorem claim_C10_clean_headline_total_on_missing :
    clean_headline .null {} = "" ∧ clean_headline .nanValue {} = "" ∧
    clean_headline .unstringifiable {} = "" ∧
    ∀ s : String, s.toLower = "nan" → clean_headline (.other s) {} = "" := by
  refine ⟨rfl, rfl, rfl, fun s h => ?_⟩
  simp [clean_headline, h]

/-- C6: the pipeline-order example: tag stripping, entity unescaping, URL
removal, ticker removal, emoji removal, whitespace collapsing and trimming
applied in the source's order turn the example headline into exactly
"Check news & updates". -/
theorem claim_C6_pipeline_order_example :
    clean_headline (.str "Check https://example.com $AAPL 😀 news &amp; updates") {} =
      "Check news & updates" := by decide

/-- C8: the caller-supplied price and news tables are unchanged after the
call returns or raises: the body works on copies, never writing through the
caller's references, so the caller's objects after the call are the ones
passed in. -/
theorem claim_C8_caller_tables_unchanged (price_data : PriceInput)
    (news_data : NewsInput) (clean_options : CleanOptions)
    (validate_inputs validate_outputs : Bool) :
    (clean_and_merge_data_call price_data news_data clean_options
      validate_inputs validate_outputs).2 = (price_data, news_data) := rfl

/-- C3 fails as stated: with input validation enabled (the default), a null
price table is a fatal shape error — `clean_and_merge_data` raises
`ValueError` instead of short-circuiting to the empty table. -/
theorem claim_C3_counterexample :
    clean_and_merge_data .null (.table []) {} true true =
      .error "Invalid price_data: Price DataFrame is None" := rfl

/-- C3 amended: once input validation is disabled or both inputs pass it, a
null or empty price table short-circuits to the empty table with the exact
nine-column output schema, irrespective of the news table's contents and of
the output-validation flag. -/
theorem claim_C3_amended_empty_short_circuit (price_data : PriceInput)
    (news_data : NewsInput) (clean_options : CleanOptions)
    (validate_inputs validate_outputs : Bool)
    (hempty : price_data = .null ∨ price_data = .table [])
    (hpass : validate_inputs = false ∨
      ((validate_price_dataframe price_data).1 = true ∧
       (validate_news_dataframe news_data).1 = true)) :
    clean_and_merge_data price_data news_data clean_options validate_inputs
      validate_outputs = .ok ⟨output_columns, []⟩ := by
  unfold clean_and_merge_data inputCheck
  rcases hpass with h | ⟨hp, hn⟩
  · subst h
    rcases hempty with h | h <;> subst h <;> rfl
  · rcases hempty with h | h <;> subst h
    · simp [validate_price_dataframe] at hp
    · cases news_data with
      | null => simp [validate_news_dataframe] at hn
      | table rs => cases validate_inputs <;> rfl

/-- Witness for the amended C3 at a concrete input: an empty price table
with validation enabled yields the empty nine-column table. -/
theorem claim_C3_witness :
    clean_and_merge_data (.table []) (.table []) {} true true =
      .ok ⟨output_columns, []⟩ :=
  claim_C3_amended_empty_short_circuit (.table []) (.table []) {} true true
    (Or.inr rfl) (Or.inr ⟨rfl, rfl⟩)

/-- The row step 7 produces for one raw merged row whose `volume` cell is
present (characterization of `enforceTypes` used by the proofs below). -/
def finalizeRow (r : RawMergedRow) : MergedRow :=
  ⟨r.date, r.ticker.getD "nan", r.«open», r.high, r.low, r.close,
   r.volume.getD 0, r.headlines.getD [], r.headline_count.getD 0⟩

theorem enforceTypes_ok : ∀ {l : List RawMergedRow} {out : List MergedRow},
    enforceTypes l = .ok out → out = l.map finalizeRow := by
  intro l
  induction l with
  | nil =>
    intro out h
    simp only [enforceTypes] at h
    cases h
    rfl
  | cons r rest ih =>
    intro out h
    simp only [enforceTypes] at h
    cases hv : r.volume with
    | none => rw [hv] at h; cases h
    | some v =>
      rw [hv] at h
      cases he : enforceTypes rest with
      | error e => rw [he] at h; cases h
      | ok rs =>
        rw [he] at h
        obtain rfl := Except.ok.inj h
        simp [finalizeRow, ih he, hv]

theorem validateOut_ok {t0 t : MergedTable} (h : validateOut t0 = .ok t) :
    t = t0 ∧ ∀ r ∈ t0.rows, r.«open».isSome ∧ r.high.isSome ∧ r.low.isSome ∧
      r.close.isSome ∧ 0 ≤ r.headline_count := by
  unfold validateOut at h
  split at h
  · cases h
  next h1 =>
    split at h
    · cases h
    next h2 =>
      split at h
      · cases h
      next h3 =>
        split at h
        · cases h
        next h4 =>
          split at h
          · cases h
          next h5 =>
            split at h
            · cases h
            next h6 =>
              split at h
              · cases h
              next h7 =>
                obtain rfl := Except.ok.inj h
                refine ⟨rfl, fun r hr => ?_⟩
                have ho : r.«open» ≠ none := fun hno =>
                  h1 (List.any_eq_true.mpr ⟨r, hr, by simp [hno]⟩)
                have hh : r.high ≠ none := fun hno =>
                  h2 (List.any_eq_true.mpr ⟨r, hr, by simp [hno]⟩)
                have hl : r.low ≠ none := fun hno =>
                  h3 (List.any_eq_true.mpr ⟨r, hr, by simp [hno]⟩)
                have hc : r.close ≠ none := fun hno =>
                  h4 (List.any_eq_true.mpr ⟨r, hr, by simp [hno]⟩)
                have hcnt : ¬(r.headline_count < 0) := fun hlt =>
                  h6 (List.any_eq_true.mpr ⟨r, hr, by simp [hlt]⟩)
                exact ⟨Option.isSome_iff_ne_none.mpr ho,
                  Option.isSome_iff_ne_none.mpr hh,
                  Option.isSome_iff_ne_none.mpr hl,
                  Option.isSome_iff_ne_none.mpr hc, le_of_not_lt hcnt⟩

theorem cam_empty_ok {price_data : PriceInput} {news_data : NewsInput}
    {clean_options : CleanOptions} {vi vo : Bool} {t : MergedTable}
    (hempty : price_data = .null ∨ price_data = .table [])
    (h : clean_and_merge_data price_data news_data clean_options vi vo = .ok t) :
    t = ⟨output_columns, []⟩ := by
  rcases hempty with rfl | rfl <;>
  · unfold clean_and_merge_data at h
    cases hic : inputCheck vi _ news_data with
    | some e => rw [hic] at h; cases h
    | none => rw [hic] at h; exact (Except.ok.inj h).symm

theorem cam_table_ok {priceRows : List PriceRow} {news_data : NewsInput}
    {clean_options : CleanOptions} {vi vo : Bool} {t : MergedTable}
    (hne : priceRows ≠ [])
    (h : clean_and_merge_data (.table priceRows) news_data clean_options vi vo =
      .ok t) :
    t = ⟨output_columns,
      ((left_merge (normalizePriceRows priceRows)
        (aggregatedNews clean_options news_data)).map fillRow).map finalizeRow⟩ := by
  obtain ⟨p0, prest, rfl⟩ := List.exists_cons_of_ne_nil hne
  unfold clean_and_merge_data at h
  cases hic : inputCheck vi (.table (p0 :: prest)) news_data with
  | some e => rw [hic] at h; cases h
  | none =>
    rw [hic] at h
    change mergeCore (p0 :: prest) news_data clean_options vo = Except.ok t at h
    unfold mergeCore at h
    cases henf : enforceTypes ((left_merge (normalizePriceRows (p0 :: prest))
        (aggregatedNews clean_options news_data)).map fillRow) with
    | error e => rw [henf] at h; cases h
    | ok finalRows =>
      rw [henf] at h
      have hfr := enforceTypes_ok henf
      cases vo with
      | false =>
        obtain rfl := (Except.ok.inj h).symm
        rw [hfr]
      | true =>
        obtain ⟨rfl, -⟩ := validateOut_ok h
        rw [hfr]

theorem cam_ok_validated {price_data : PriceInput} {news_data : NewsInput}
    {clean_options : CleanOptions} {vi : Bool} {t : MergedTable}
    (h : clean_and_merge_data price_data news_data clean_options vi true = .ok t) :
    t.rows = [] ∨ validateOut t = .ok t := by
  cases price_data with
  | null => rw [cam_empty_ok (Or.inl rfl) h]; exact Or.inl rfl
  | table rows =>
    cases rows with
    | nil => rw [cam_empty_ok (Or.inr rfl) h]; exact Or.inl rfl
    | cons p0 prest =>
      unfold clean_and_merge_data at h
      cases hic : inputCheck vi (.table (p0 :: prest)) news_data with
      | some e => rw [hic] at h; cases h
      | none =>
        rw [hic] at h
        change mergeCore (p0 :: prest) news_data clean_options true = Except.ok t at h
        unfold mergeCore at h
        cases henf : enforceTypes ((left_merge (normalizePriceRows (p0 :: prest))
            (aggregatedNews clean_options news_data)).map fillRow) with
        | error e => rw [henf] at h; cases h
        | ok finalRows =>
          rw [henf] at h
          obtain ⟨rfl, -⟩ := validateOut_ok h
          exact Or.inr h

theorem insertSortedU_mem {z x : Nat} {l : List Nat}
    (h : z ∈ insertSortedU x l) : z = x ∨ z ∈ l := by
  induction l with
  | nil => simpa [insertSortedU] using h
  | cons y ys ih =>
    unfold insertSortedU at h
    split at h
    · rcases List.mem_cons.mp h with rfl | hz
      · exact Or.inl rfl
      · exact Or.inr hz
    · split at h
      · exact Or.inr h
      · rcases List.mem_cons.mp h with rfl | hz
        · exact Or.inr (List.mem_cons_self _ _)
        · rcases ih hz with h' | h'
          · exact Or.inl h'
          · exact Or.inr (List.mem_cons_of_mem _ h')

theorem insertSortedU_sorted {x : Nat} {l : List Nat}
    (h : l.Sorted (· < ·)) : (insertSortedU x l).Sorted (· < ·) := by
  induction l with
  | nil => simp [insertSortedU]
  | cons y ys ih =>
    rw [List.sorted_cons] at h
    obtain ⟨hy, hys⟩ := h
    unfold insertSortedU
    split
    · rw [List.sorted_cons]
      refine ⟨?_, by rw [List.sorted_cons]; exact ⟨hy, hys⟩⟩
      intro b hb
      rcases List.mem_cons.mp hb with rfl | hb
      · omega
      · have := hy b hb; omega
    · split
      · rw [List.sorted_cons]; exact ⟨hy, hys⟩
      · rw [List.sorted_cons]
        refine ⟨?_, ih hys⟩
        intro b hb
        rcases insertSortedU_mem hb with rfl | hb
        · omega
        · exact hy b hb

theorem sortedUniqueDates_sorted (l : List Nat) :
    (sortedUniqueDates l).Sorted (· < ·) := by
  induction l with
  | nil => simp [sortedUniqueDates]
  | cons a l ih => exact insertSortedU_sorted ih

theorem sortedUniqueDates_nodup (l : List Nat) : (sortedUniqueDates l).Nodup :=
  (sortedUniqueDates_sorted l).nodup

theorem aggregate_news_dates (rows : List (Nat × String)) :
    (aggregate_news rows).map AggRow.date =
      sortedUniqueDates (rows.map Prod.fst) := by
  unfold aggregate_news
  rw [List.map_map]
  exact List.map_id'' (fun d => rfl) _

theorem aggregatedNews_dates_nodup (clean_options : CleanOptions)
    (news_data : NewsInput) :
    ((aggregatedNews clean_options news_data).map AggRow.date).Nodup := by
  unfold aggregatedNews
  split
  · simp
  · simp only [processNews]
    rw [aggregate_news_dates]
    exact sortedUniqueDates_nodup _

theorem filter_date_len_le_one {agg : List AggRow}
    (hnd : (agg.map AggRow.date).Nodup) (d : Nat) :
    (agg.filter fun a => a.date == d).length ≤ 1 := by
  induction agg with
  | nil => simp
  | cons a rest ih =>
    rw [List.map_cons, List.nodup_cons] at hnd
    obtain ⟨hna, hnd⟩ := hnd
    by_cases had : a.date = d
    · rw [List.filter_cons_of_pos (by simp [had])]
      have hrest : rest.filter (fun a => a.date == d) = [] := by
        rw [List.filter_eq_nil_iff]
        intro b hb hbd
        rw [beq_iff_eq] at hbd
        exact hna (had ▸ hbd ▸ List.mem_map_of_mem AggRow.date hb)
      simp [hrest]
    · rw [List.filter_cons_of_neg (by simp [had])]
      exact ih hnd

theorem joinRow_length {agg : List AggRow}
    (hnd : (agg.map AggRow.date).Nodup) (p : NormPriceRow) :
    (joinRow agg p).length = 1 := by
  unfold joinRow
  cases hf : agg.filter (fun a => a.date == p.date) with
  | nil => rfl
  | cons m ms =>
    have hle := filter_date_len_le_one hnd p.date
    rw [hf] at hle
    simp only [List.length_cons] at hle
    have : ms = [] := List.length_eq_zero.mp (by omega)
    subst this
    rfl

theorem left_merge_length {agg : List AggRow}
    (hnd : (agg.map AggRow.date).Nodup) (price : List NormPriceRow) :
    (left_merge price agg).length = price.length := by
  induction price with
  | nil => rfl
  | cons p rest ih =>
    unfold left_merge at ih ⊢
    rw [List.map_cons, List.flatten_cons, List.length_append, ih,
      joinRow_length hnd, List.length_cons]
    omega

theorem normalizePriceRows_length (rows : List PriceRow) :
    (normalizePriceRows rows).length =
      rows.countP (fun r => (normalize_date_coerce r.date).isSome) := by
  induction rows with
  | nil => rfl
  | cons r rest ih =>
    unfold normalizePriceRows at ih ⊢
    cases hr : normalize_date_coerce r.date <;>
      simp [List.filterMap_cons, hr, List.countP_cons, ih]

theorem aggregate_news_count {rows : List (Nat × String)} {a : AggRow}
    (ha : a ∈ aggregate_news rows) :
    a.headline_count = (a.headlines.length : Int) := by
  unfold aggregate_news at ha
  rw [List.mem_map] at ha
  obtain ⟨d, hd, rfl⟩ := ha
  rfl

theorem aggregatedNews_count {clean_options : CleanOptions}
    {news_data : NewsInput} {a : AggRow}
    (ha : a ∈ aggregatedNews clean_options news_data) :
    a.headline_count = (a.headlines.length : Int) := by
  unfold aggregatedNews at ha
  split at ha
  · cases ha
  · simp only [processNews] at ha
    exact aggregate_news_count ha

theorem left_merge_rows {price : List NormPriceRow} {agg : List AggRow}
    {raw : RawMergedRow} (hraw : raw ∈ left_merge price agg) :
    (raw.headlines = none ∧ raw.headline_count = none) ∨
    ∃ a ∈ agg, raw.headlines = some a.headlines ∧
      raw.headline_count = some a.headline_count := by
  unfold left_merge at hraw
  rw [List.mem_flatten] at hraw
  obtain ⟨block, hblock, hmem⟩ := hraw
  rw [List.mem_map] at hblock
  obtain ⟨p, hp, rfl⟩ := hblock
  unfold joinRow at hmem
  cases hf : agg.filter (fun a => a.date == p.date) with
  | nil =>
    rw [hf] at hmem
    obtain rfl := List.mem_singleton.mp hmem
    exact Or.inl ⟨rfl, rfl⟩
  | cons m ms =>
    rw [hf] at hmem
    rw [List.mem_map] at hmem
    obtain ⟨a, ha, rfl⟩ := hmem
    exact Or.inr ⟨a, List.mem_of_mem_filter (hf ▸ ha), rfl, rfl⟩

/-- C1: every row of a returned merged table satisfies
`headline_count == length(headlines)`; the `headlines` field is list-typed
by construction of `MergedRow` (the step-6 fill replaces every non-list
cell by the empty list), never null or absent, possibly empty. -/
theorem claim_C1_headline_count_invariant (price_data : PriceInput)
    (news_data : NewsInput) (clean_options : CleanOptions)
    (validate_inputs validate_outputs : Bool) (t : MergedTable)
    (h : clean_and_merge_data price_data news_data clean_options
      validate_inputs validate_outputs = .ok t) :
    ∀ r ∈ t.rows, r.headline_count = (r.headlines.length : Int) := by
  have hmain : ∀ (priceRows : List PriceRow), priceRows ≠ [] →
      clean_and_merge_data (.table priceRows) news_data clean_options
        validate_inputs validate_outputs = .ok t →
      ∀ r ∈ t.rows, r.headline_count = (r.headlines.length : Int) := by
    intro priceRows hne h r hr
    rw [cam_table_ok hne h] at hr
    simp only [List.mem_map] at hr
    obtain ⟨rf, ⟨raw, hraw, rfl⟩, rfl⟩ := hr
    rcases left_merge_rows hraw with ⟨h1, h2⟩ | ⟨a, ha, h1, h2⟩
    · simp [finalizeRow, fillRow, h1, h2]
    · simp [finalizeRow, fillRow, h1, h2, aggregatedNews_count ha]
  cases price_data with
  | null =>
    rw [cam_empty_ok (Or.inl rfl) h]
    intro r hr
    cases hr
  | table rows =>
    cases rows with
    | nil =>
      rw [cam_empty_ok (Or.inr rfl) h]
      intro r hr
      cases hr
    | cons p0 prest => exact hmain _ (by simp) h

/-- Witness for C1 at a concrete input: one price row, an empty news table. -/
theorem claim_C1_witness :
    (⟨10, "AAPL", some 185, some 186, some 184, some 185, 1000000, [], 0⟩ :
      MergedRow).headline_count =
    ((⟨10, "AAPL", some 185, some 186, some 184, some 185, 1000000, [], 0⟩ :
      MergedRow).headlines.length : Int) :=
  claim_C1_headline_count_invariant
    (.table [⟨.stamp 10 0 none, some "AAPL", some 185, some 186, some 184,
      some 185, some 1000000⟩])
    (.table []) {} true true
    ⟨output_columns, [⟨10, "AAPL", some 185, some 186, some 184, some 185,
      1000000, [], 0⟩]⟩
    rfl _ (List.mem_singleton.mpr rfl)

/-- C2: for a non-empty price table, a returned merged table has exactly one
row per price input row whose date normalized successfully: the left join
against the per-date aggregation (whose dates are pairwise distinct)
neither duplicates nor drops any surviving price row. -/
theorem claim_C2_row_count_law (priceRows : List PriceRow)
    (news_data : NewsInput) (clean_options : CleanOptions)
    (validate_inputs validate_outputs : Bool) (t : MergedTable)
    (hne : priceRows ≠ [])
    (h : clean_and_merge_data (.table priceRows) news_data clean_options
      validate_inputs validate_outputs = .ok t) :
    t.rows.length =
      priceRows.countP (fun r => (normalize_date_coerce r.date).isSome) := by
  rw [cam_table_ok hne h]
  simp only [List.length_map]
  rw [left_merge_length (aggregatedNews_dates_nodup _ _)]
  exact normalizePriceRows_length priceRows

/-- Witness for C2 at a concrete input: two price rows, one with an
unparseable date; the output has exactly one row. -/
theorem claim_C2_witness :
    (⟨output_columns, [⟨10, "AAPL", some 185, some 186, some 184, some 185,
      1000000, [], 0⟩]⟩ : MergedTable).rows.length =
      List.countP (fun (r : PriceRow) => (normalize_date_coerce r.date).isSome)
        [⟨.stamp 10 0 none, some "AAPL", some 185, some 186, some 184,
          some 185, some 1000000⟩,
         ⟨.bad "garbage", some "AAPL", some 1, some 2, some 3, some 4,
          some 5⟩] :=
  claim_C2_row_count_law
    [⟨.stamp 10 0 none, some "AAPL", some 185, some 186, some 184, some 185,
      some 1000000⟩,
     ⟨.bad "garbage", some "AAPL", some 1, some 2, some 3, some 4, some 5⟩]
    (.table []) {} true true
    ⟨output_columns, [⟨10, "AAPL", some 185, some 186, some 184, some 185,
      1000000, [], 0⟩]⟩
    (by simp) rfl

/-- C7: with output validation enabled, a returned table has no null in
open/high/low/close (`volume` is `int64` after step 7 and cannot hold null,
the type-enforcement step having raised on a NaN volume) and no negative
`headline_count`; `headlines` is list-typed by construction.  A violation
makes the call raise instead of returning the table. -/
theorem claim_C7_output_validation_guards (price_data : PriceInput)
    (news_data : NewsInput) (clean_options : CleanOptions)
    (validate_inputs : Bool) (t : MergedTable)
    (h : clean_and_merge_data price_data news_data clean_options
      validate_inputs true = .ok t) :
    ∀ r ∈ t.rows, r.«open».isSome ∧ r.high.isSome ∧ r.low.isSome ∧
      r.close.isSome ∧ 0 ≤ r.headline_count := by
  rcases cam_ok_validated h with hnil | hval
  · intro r hr
    rw [hnil] at hr
    cases hr
  · intro r hr
    exact (validateOut_ok hval).2 r hr

/-- Witness for C7 at a concrete input. -/
theorem claim_C7_witness :
    (⟨10, "AAPL", some 185, some 186, some 184, some 185, 1000000, [], 0⟩ :
      MergedRow).«open».isSome ∧
    (⟨10, "AAPL", some 185, some 186, some 184, some 185, 1000000, [], 0⟩ :
      MergedRow).high.isSome ∧
    (⟨10, "AAPL", some 185, some 186, some 184, some 185, 1000000, [], 0⟩ :
      MergedRow).low.isSome ∧
    (⟨10, "AAPL", some 185, some 186, some 184, some 185, 1000000, [], 0⟩ :
      MergedRow).close.isSome ∧
    0 ≤ (⟨10, "AAPL", some 185, some 186, some 184, some 185, 1000000, [], 0⟩ :
      MergedRow).headline_count :=
  claim_C7_output_validation_guards
    (.table [⟨.stamp 10 0 none, some "AAPL", some 185, some 186, some 184,
      some 185, some 1000000⟩])
    (.table []) {} true
    ⟨output_columns, [⟨10, "AAPL", some 185, some 186, some 184, some 185,
      1000000, [], 0⟩]⟩
    rfl _ (List.mem_singleton.mpr rfl)

theorem cam_eq_mergeCore {news_data : NewsInput} {clean_options : CleanOptions}
    {vi vo : Bool} (p0 : PriceRow) (prest : List PriceRow)
    (hval : inputCheck vi (.table (p0 :: prest)) news_data = none) :
    clean_and_merge_data (.table (p0 :: prest)) news_data clean_options vi vo =
      mergeCore (p0 :: prest) news_data clean_options vo := by
  unfold clean_and_merge_data
  rw [hval]

theorem string_length_pos {s : String} (h : s ≠ "") : 0 < s.length := by
  cases s with
  | mk data =>
    cases data with
    | nil => exact absurd rfl h
    | cons c cs => simp [String.length]

theorem sortedUniqueDates_const {l : List Nat} {d : Nat} (hne : l ≠ [])
    (h : ∀ x ∈ l, x = d) : sortedUniqueDates l = [d] := by
  induction l with
  | nil => exact absurd rfl hne
  | cons a rest ih =>
    obtain rfl := h a (List.mem_cons_self _ _)
    cases rest with
    | nil => rfl
    | cons b bs =>
      have hrest : sortedUniqueDates (b :: bs) = [a] :=
        ih (by simp) (fun x hx => h x (List.mem_cons_of_mem _ hx))
      show insertSortedU a (sortedUniqueDates (b :: bs)) = [a]
      rw [hrest]
      simp [insertSortedU]

theorem filterMap_norm_const {ns : List NewsRow} {d : Nat}
    (hnd : ∀ r ∈ ns, normalize_date_coerce r.date = some d) :
    (ns.filterMap fun r =>
      match normalize_date_coerce r.date with
      | none => none
      | some d2 => some (d2, r.headline)) =
      ns.map fun r => (d, r.headline) := by
  induction ns with
  | nil => rfl
  | cons r rs ih =>
    rw [List.filterMap_cons, hnd r (List.mem_cons_self r rs), List.map_cons,
      ih (fun x hx => hnd x (List.mem_cons_of_mem _ hx))]

/-- C5: with one matching price row, `n` news rows sharing the (normalized)
date, all cleaning to non-empty strings, the merged row carries
`headline_count = n` and the `n` cleaned headlines in original news-row
order, duplicate identical headlines retained. -/
theorem claim_C5_per_date_aggregation (d : Nat) (tk : String)
    (o hi lo cl : Rat) (v : Int) (p : PriceRow) (ns : List NewsRow)
    (clean_options : CleanOptions)
    (hne : ns ≠ [])
    (hpd : normalize_date_coerce p.date = some d)
    (hpt : p.ticker = some tk)
    (hpo : p.«open» = some o) (hph : p.high = some hi) (hpl : p.low = some lo)
    (hpc : p.close = some cl) (hpv : p.volume = some v)
    (hnd : ∀ r ∈ ns, normalize_date_coerce r.date = some d)
    (hcl : ∀ r ∈ ns, clean_headline r.headline clean_options ≠ "") :
    clean_and_merge_data (.table [p]) (.table ns) clean_options true true =
      .ok ⟨output_columns,
        [⟨d, tk, some o, some hi, some lo, some cl, v,
          ns.map (fun r => clean_headline r.headline clean_options),
          (ns.length : Int)⟩]⟩ := by
  have hdna : p.date.isNa = false := by
    cases hp : p.date with
    | null => rw [hp] at hpd; cases hpd
    | stamp a b c => rfl
    | bad s => rfl
  have hic : inputCheck true (.table [p]) (.table ns) = none := by
    unfold inputCheck validate_price_dataframe validate_news_dataframe
    simp [hdna, hpt]
  rw [cam_eq_mergeCore p [] hic]
  have hnp : normalizePriceRows [p] =
      [⟨d, some tk, some o, some hi, some lo, some cl, some v⟩] := by
    simp [normalizePriceRows, hpd, hpt, hpo, hph, hpl, hpc, hpv]
  obtain ⟨n0, ns', rfl⟩ := List.exists_cons_of_ne_nil hne
  have hkept : ((n0 :: ns').map (fun r =>
      (d, clean_headline r.headline clean_options))).filter
        (fun dc => dc.2.length > 0) =
      (n0 :: ns').map (fun r => (d, clean_headline r.headline clean_options)) := by
    apply List.filter_eq_self.mpr
    intro a ha
    rw [List.mem_map] at ha
    obtain ⟨r, hr, rfl⟩ := ha
    simpa using string_length_pos (hcl r hr)
  have hagg : aggregatedNews clean_options (.table (n0 :: ns')) =
      [⟨d, (n0 :: ns').map (fun r => clean_headline r.headline clean_options),
        (((n0 :: ns').map (fun r =>
          clean_headline r.headline clean_options)).length : Int)⟩] := by
    unfold aggregatedNews newsCopyRows
    simp only [processNews]
    rw [filterMap_norm_const hnd, List.map_map]
    rw [show ((fun dr : Nat × RawText =>
        (dr.1, clean_headline dr.2 clean_options)) ∘
        fun (r : NewsRow) => (d, r.headline)) =
        fun r => (d, clean_headline r.headline clean_options) from rfl]
    rw [hkept]
    unfold aggregate_news
    have hdates : sortedUniqueDates
        (((n0 :: ns').map fun r =>
          (d, clean_headline r.headline clean_options)).map Prod.fst) = [d] := by
      apply sortedUniqueDates_const (by simp)
      intro x hx
      rw [List.map_map, List.mem_map] at hx
      obtain ⟨r, hr, rfl⟩ := hx
      rfl
    rw [hdates]
    have hfilterall : (((n0 :: ns').map fun r =>
        (d, clean_headline r.headline clean_options)).filter
          (fun rc => rc.1 == d)) =
        ((n0 :: ns').map fun r =>
          (d, clean_headline r.headline clean_options)) := by
      apply List.filter_eq_self.mpr
      intro a ha
      rw [List.mem_map] at ha
      obtain ⟨r, hr, rfl⟩ := ha
      simp
    rw [List.map_singleton, hfilterall, List.map_map]
    rfl
  unfold mergeCore
  rw [hnp, hagg]
  unfold left_merge joinRow
  simp only [List.map_singleton, List.flatten]
  rw [List.filter_singleton]
  simp only [beq_self_eq_true, if_pos]
  unfold fillRow enforceTypes
  simp only [List.map_singleton, List.flatten_nil, List.append_nil]
  unfold validateOut
  have hnonneg : ¬(((ns'.length : Int) + 1) < 0) := by omega
  simp [enforceTypes, output_columns, hnonneg]

/-- Witness for C5 at a concrete input: three news rows on one date, two of
them identical headlines; the merged row keeps both duplicates in original
order with `headline_count = 3`. -/
theorem claim_C5_witness :
    clean_and_merge_data
      (.table [⟨.stamp 10 0 none, some "AAPL", some 185, some 186, some 184,
        some 185, some 1000000⟩])
      (.table [⟨.stamp 10 2 none, .str "Apple up"⟩,
               ⟨.stamp 10 0 (some 3), .str "Apple up"⟩,
               ⟨.stamp 10 5 none, .str "Tech down"⟩]) {} true true =
      .ok ⟨output_columns,
        [⟨10, "AAPL", some 185, some 186, some 184, some 185, 1000000,
          ["Apple up", "Apple up", "Tech down"], 3⟩]⟩ :=
  claim_C5_per_date_aggregation 10 "AAPL" 185 186 184 185 1000000 _ _ {}
    (by simp) rfl rfl rfl rfl rfl rfl rfl (by decide) (by decide)

/-- The character fragment on which the amended idempotence claim is
stated: ASCII, excluding the five characters through which a first cleaning
pass can expose new removable tokens (`&` via entity unescaping, `<` via
tag re-exposure, `$` via ticker formation, `:` and `.` via URL
formation). -/
def SafeChar (c : Char) : Bool :=
  c.toNat < 128 && !(c == '&' || c == '<' || c == '$' || c == ':' || c == '.')

theorem SafeChar_props {c : Char} (h : SafeChar c = true) :
    c.toNat < 128 ∧ c ≠ '&' ∧ c ≠ '<' ∧ c ≠ '$' ∧ c ≠ ':' ∧ c ≠ '.' := by
  simp only [SafeChar, Bool.and_eq_true, Bool.not_eq_true', Bool.or_eq_false_iff,
    beq_eq_false_iff_ne, decide_eq_true_eq] at h
  obtain ⟨h0, ⟨⟨⟨h1, h2⟩, h3⟩, h4⟩, h5⟩ := h
  exact ⟨h0, h1, h2, h3, h4, h5⟩

theorem stripTagsAux_id {n : Nat} {l : List Char} (h : ∀ c ∈ l, c ≠ '<') :
    stripTagsAux n l = l := by
  induction n generalizing l with
  | zero => rfl
  | succ n ih =>
    cases l with
    | nil => rfl
    | cons c rest =>
      unfold stripTagsAux
      rw [if_neg (by simpa using h c (List.mem_cons_self _ _))]
      rw [ih (fun x hx => h x (List.mem_cons_of_mem _ hx))]

theorem stripTags_id {l : List Char} (h : ∀ c ∈ l, c ≠ '<') :
    stripTags l = l := stripTagsAux_id h

theorem unescapeAux_id {n : Nat} {l : List Char} (h : ∀ c ∈ l, c ≠ '&') :
    unescapeAux n l = l := by
  induction n generalizing l with
  | zero => rfl
  | succ n ih =>
    cases l with
    | nil => rfl
    | cons c rest =>
      unfold unescapeAux
      rw [if_neg (by simpa using h c (List.mem_cons_self _ _))]
      rw [ih (fun x hx => h x (List.mem_cons_of_mem _ hx))]

theorem htmlUnescape_id {l : List Char} (h : ∀ c ∈ l, c ≠ '&') :
    htmlUnescape l = l := unescapeAux_id h

theorem tickerMatchRest_none {c : Char} {rest : List Char} (hc : c ≠ '$') :
    tickerMatchRest (c :: rest) = none := by
  unfold tickerMatchRest
  split
  · next heq =>
    injection heq with h1 h2
    exact absurd h1 hc
  · rfl

theorem tickerSubAux_id {n : Nat} {l : List Char} (h : ∀ c ∈ l, c ≠ '$') :
    tickerSubAux n l = l := by
  induction n generalizing l with
  | zero => rfl
  | succ n ih =>
    cases l with
    | nil => rfl
    | cons c rest =>
      unfold tickerSubAux
      rw [tickerMatchRest_none (h c (List.mem_cons_self _ _))]
      exact congrArg (c :: ·) (ih (fun x hx => h x (List.mem_cons_of_mem _ hx)))

theorem tickerSub_id {l : List Char} (h : ∀ c ∈ l, c ≠ '$') :
    tickerSub l = l := tickerSubAux_id h

theorem schemeRest_colon {l r : List Char} (h : schemeRest l = some r) :
    ':' ∈ l := by
  unfold schemeRest at h
  split at h
  · split at h
    · split at h
      · simp
      · simp
      · cases h
    · cases h
  · cases h

theorem wwwRest_dot {l r : List Char} (h : wwwRest l = some r) : '.' ∈ l := by
  unfold wwwRest at h
  split at h
  · simp
  · cases h

theorem urlMatchRest_none {l : List Char} (hcolon : ∀ c ∈ l, c ≠ ':')
    (hdot : ∀ c ∈ l, c ≠ '.') : urlMatchRest l = none := by
  cases hs : schemeRest l with
  | some r => exact absurd rfl (hcolon ':' (schemeRest_colon hs))
  | none =>
    cases hw : wwwRest l with
    | some r => exact absurd rfl (hdot '.' (wwwRest_dot hw))
    | none => unfold urlMatchRest; rw [hs, hw]

theorem urlSubAux_id {n : Nat} {l : List Char} (hcolon : ∀ c ∈ l, c ≠ ':')
    (hdot : ∀ c ∈ l, c ≠ '.') : urlSubAux n l = l := by
  induction n generalizing l with
  | zero => rfl
  | succ n ih =>
    cases l with
    | nil => rfl
    | cons c rest =>
      unfold urlSubAux
      rw [urlMatchRest_none hcolon hdot]
      exact congrArg (c :: ·)
        (ih (fun x hx => hcolon x (List.mem_cons_of_mem _ hx))
          (fun x hx => hdot x (List.mem_cons_of_mem _ hx)))

theorem urlSub_id {l : List Char} (hcolon : ∀ c ∈ l, c ≠ ':')
    (hdot : ∀ c ∈ l, c ≠ '.') : urlSub l = l := urlSubAux_id hcolon hdot

theorem nfkdChar_ascii {c : Char} (h : c.toNat < 128) : nfkdChar c = [c] := by
  unfold nfkdChar
  split
  · next heq => exact absurd heq (by omega)
  · next heq => exact absurd heq (by omega)
  · next heq => exact absurd heq (by omega)
  · rfl

theorem nfkd_ascii {l : List Char} (h : ∀ c ∈ l, c.toNat < 128) :
    nfkd l = l := by
  unfold nfkd
  induction l with
  | nil => rfl
  | cons c rest ih =>
    rw [List.map_cons, List.flatten_cons,
      nfkdChar_ascii (h c (List.mem_cons_self _ _)),
      ih (fun x hx => h x (List.mem_cons_of_mem _ hx)), List.singleton_append]

theorem ranges_any_low {rs : List (Nat × Nat)} (hlow : ∀ p ∈ rs, 128 ≤ p.1)
    {n : Nat} (hn : n < 128) :
    rs.any (fun r => r.1 ≤ n && n ≤ r.2) = false := by
  induction rs with
  | nil => rfl
  | cons p rest ih =>
    rw [List.any_cons]
    have h1 : ¬(p.1 ≤ n) := by
      have := hlow p (List.mem_cons_self _ _)
      omega
    simp [h1, ih (fun q hq => hlow q (List.mem_cons_of_mem _ hq))]

theorem is_emoji_ascii {c : Char} (h : c.toNat < 128) : is_emoji c = false :=
  ranges_any_low (by decide) h

theorem filter_emoji_id {l : List Char} (h : ∀ c ∈ l, c.toNat < 128) :
    l.filter (fun c => !is_emoji c) = l :=
  List.filter_eq_self.mpr (fun c hc => by simp [is_emoji_ascii (h c hc)])

theorem collapseWs_head (d : Char) (rest : List Char) :
    ∃ t, collapseWs (d :: rest) = (if pyIsSpace d then ' ' else d) :: t := by
  induction rest generalizing d with
  | nil => exact ⟨[], by cases hd : pyIsSpace d <;> simp [collapseWs, hd]⟩
  | cons e rest2 ih =>
    unfold collapseWs
    by_cases hde : (pyIsSpace d && pyIsSpace e) = true
    · rw [if_pos hde]
      obtain ⟨t, ht⟩ := ih e
      refine ⟨t, ?_⟩
      have hde2 : pyIsSpace d = true ∧ pyIsSpace e = true := by simpa using hde
      rw [ht, hde2.1, hde2.2]
      rfl
    · rw [if_neg hde]
      exact ⟨collapseWs (e :: rest2), rfl⟩

theorem collapseWs_chain : ∀ l : List Char,
    (collapseWs l).Chain'
      (fun a b => ¬(pyIsSpace a = true ∧ pyIsSpace b = true)) := by
  intro l
  induction l with
  | nil => simp [collapseWs]
  | cons c rest ih =>
    cases rest with
    | nil => cases hc : pyIsSpace c <;> simp [collapseWs, hc]
    | cons d rest2 =>
      unfold collapseWs
      by_cases hcd : (pyIsSpace c && pyIsSpace d) = true
      · rw [if_pos hcd]; exact ih
      · rw [if_neg hcd]
        obtain ⟨t, ht⟩ := collapseWs_head d rest2
        rw [ht, List.chain'_cons]
        constructor
        · rintro ⟨ha, hb⟩
          apply hcd
          have h1 : pyIsSpace c = true := by
            by_cases hc : pyIsSpace c = true
            · exact hc
            · rw [if_neg hc] at ha; exact absurd ha hc
          have h2 : pyIsSpace d = true := by
            by_cases hd : pyIsSpace d = true
            · exact hd
            · rw [if_neg hd] at hb; exact absurd hb hd
          simp [h1, h2]
        · rw [← ht]; exact ih

theorem collapseWs_blank : ∀ (l : List Char) (c : Char), c ∈ collapseWs l →
    pyIsSpace c = true → c = ' ' := by
  intro l
  induction l with
  | nil => intro c hc _; simp [collapseWs] at hc
  | cons a rest ih =>
    cases rest with
    | nil =>
      intro c hc hsp
      by_cases ha : pyIsSpace a = true
      · simp [collapseWs, ha] at hc
        exact hc
      · simp [collapseWs, ha] at hc
        subst hc
        exact absurd hsp ha
    | cons b rest2 =>
      intro c hc hsp
      unfold collapseWs at hc
      by_cases hab : (pyIsSpace a && pyIsSpace b) = true
      · rw [if_pos hab] at hc
        exact ih c hc hsp
      · rw [if_neg hab] at hc
        rcases List.mem_cons.mp hc with rfl | h2
        · by_cases ha : pyIsSpace a = true
          · rw [if_pos ha]
          · rw [if_neg ha] at hsp ⊢
            exact absurd hsp ha
        · exact ih c h2 hsp

theorem collapseWs_chars : ∀ {l : List Char} {c : Char}, c ∈ collapseWs l →
    c ∈ l ∨ c = ' ' := by
  intro l
  induction l with
  | nil => intro c hc; simp [collapseWs] at hc
  | cons a rest ih =>
    intro c hc
    cases rest with
    | nil =>
      by_cases ha : pyIsSpace a = true
      · simp [collapseWs, ha] at hc
        exact Or.inr hc
      · simp [collapseWs, ha] at hc
        exact Or.inl (by simp [hc])
    | cons b rest2 =>
      unfold collapseWs at hc
      by_cases hab : (pyIsSpace a && pyIsSpace b) = true
      · rw [if_pos hab] at hc
        rcases ih hc with h | h
        · exact Or.inl (List.mem_cons_of_mem _ h)
        · exact Or.inr h
      · rw [if_neg hab] at hc
        rcases List.mem_cons.mp hc with rfl | h2
        · by_cases ha : pyIsSpace a = true
          · rw [if_pos ha]
            exact Or.inr rfl
          · rw [if_neg ha]
            exact Or.inl (List.mem_cons_self _ _)
        · rcases ih h2 with h | h
          · exact Or.inl (List.mem_cons_of_mem _ h)
          · exact Or.inr h

theorem collapseWs_id : ∀ {l : List Char},
    l.Chain' (fun a b => ¬(pyIsSpace a = true ∧ pyIsSpace b = true)) →
    (∀ c ∈ l, pyIsSpace c = true → c = ' ') → collapseWs l = l := by
  intro l
  induction l with
  | nil => intro _ _; rfl
  | cons a rest ih =>
    intro hch hbl
    cases rest with
    | nil =>
      by_cases ha : pyIsSpace a = true
      · have h1 := hbl a (List.mem_cons_self _ _) ha
        subst h1
        decide
      · simp [collapseWs, ha]
    | cons b rest2 =>
      rw [List.chain'_cons] at hch
      obtain ⟨hr, hch2⟩ := hch
      have hab : ¬((pyIsSpace a && pyIsSpace b) = true) := by
        intro hc
        exact hr (by simpa using hc)
      unfold collapseWs
      rw [if_neg hab,
        ih hch2 (fun c hc hs => hbl c (List.mem_cons_of_mem _ hc) hs)]
      by_cases ha : pyIsSpace a = true
      · rw [if_pos ha, hbl a (List.mem_cons_self _ _) ha]
      · rw [if_neg ha]

theorem dropWhile_first (p : Char → Bool) (l : List Char) :
    l.dropWhile p = [] ∨ ∃ c t, l.dropWhile p = c :: t ∧ p c = false := by
  induction l with
  | nil => exact Or.inl rfl
  | cons c rest ih =>
    rw [List.dropWhile_cons]
    by_cases hc : p c = true
    · rw [if_pos hc]
      exact ih
    · rw [if_neg hc]
      exact Or.inr ⟨c, rest, rfl, by simpa using hc⟩

theorem reverse_dropWhile_front (p : Char → Bool) (l : List Char) :
    (l.reverse.dropWhile p).reverse <+: l := by
  obtain ⟨s, hs⟩ := List.dropWhile_suffix (l := l.reverse) p
  refine ⟨s.reverse, ?_⟩
  rw [← List.reverse_append, hs, List.reverse_reverse]

theorem front_head {l₁ l₂ : List Char} {c : Char} {t : List Char}
    (h : l₁ <+: l₂) (he : l₁ = c :: t) : ∃ t2, l₂ = c :: t2 := by
  obtain ⟨s, hs⟩ := h
  rw [he] at hs
  exact ⟨t ++ s, by rw [← hs, List.cons_append]⟩

theorem pyStrip_part (l : List Char) : pyStrip l <:+: l :=
  (reverse_dropWhile_front pyIsSpace (l.dropWhile pyIsSpace)).isInfix.trans
    (List.dropWhile_suffix pyIsSpace).isInfix

theorem pyStrip_head {l : List Char} {c : Char} {t : List Char}
    (h : pyStrip l = c :: t) : pyIsSpace c = false := by
  unfold pyStrip at h
  rcases dropWhile_first pyIsSpace l with hA | ⟨a, t2, hA, ha⟩
  · rw [hA] at h
    simp at h
  · obtain ⟨t3, ht3⟩ := front_head
      (reverse_dropWhile_front pyIsSpace (l.dropWhile pyIsSpace)) h
    rw [hA] at ht3
    injection ht3 with h1 _
    exact h1 ▸ ha

theorem pyStrip_rev_head (l : List Char) :
    (pyStrip l).reverse.dropWhile pyIsSpace = (pyStrip l).reverse := by
  unfold pyStrip
  rw [List.reverse_reverse]
  rcases dropWhile_first pyIsSpace (l.dropWhile pyIsSpace).reverse with
    hB | ⟨b, t2, hB, hb⟩
  · rw [hB]
    rfl
  · rw [hB, List.dropWhile_cons, if_neg (by simp [hb])]

theorem pyStrip_idem (l : List Char) : pyStrip (pyStrip l) = pyStrip l := by
  cases hr : pyStrip l with
  | nil => rfl
  | cons c t =>
    conv_lhs => unfold pyStrip
    rw [List.dropWhile_cons, if_neg (by simp [pyStrip_head hr])]
    have h2 := pyStrip_rev_head l
    rw [hr] at h2
    rw [h2, List.reverse_reverse]

theorem pyStrip_not_all_space {l : List Char} {c : Char} {t : List Char}
    (h : pyStrip l = c :: t) : (c :: t).all pyIsSpace = false := by
  simp [List.all_cons, pyStrip_head h]

theorem strip_collapse_fixed (x : List Char) :
    collapseWs (pyStrip (collapseWs x)) = pyStrip (collapseWs x) ∧
    pyStrip (pyStrip (collapseWs x)) = pyStrip (collapseWs x) := by
  constructor
  · apply collapseWs_id
    · exact List.Chain'.infix (collapseWs_chain x) (pyStrip_part _)
    · intro c hc hs
      exact collapseWs_blank x c ((pyStrip_part _).sublist.mem hc) hs
  · exact pyStrip_idem _

theorem runPipeline_default {l : List Char}
    (hsafe : ∀ c ∈ l, SafeChar c = true) :
    runPipeline {} l = pyStrip (collapseWs (l.filter keepChar)) := by
  have hascii : ∀ c ∈ l, c.toNat < 128 :=
    fun c hc => (SafeChar_props (hsafe c hc)).1
  show pyStrip (collapseWs (((nfkd (tickerSub (urlSub (htmlUnescape
    (stripTags l))))).filter (fun c => !is_emoji c)).filter keepChar)) =
    pyStrip (collapseWs (l.filter keepChar))
  rw [stripTags_id (fun c hc => (SafeChar_props (hsafe c hc)).2.2.1),
    htmlUnescape_id (fun c hc => (SafeChar_props (hsafe c hc)).2.1),
    urlSub_id (fun c hc => (SafeChar_props (hsafe c hc)).2.2.2.2.1)
      (fun c hc => (SafeChar_props (hsafe c hc)).2.2.2.2.2),
    tickerSub_id (fun c hc => (SafeChar_props (hsafe c hc)).2.2.2.1),
    nfkd_ascii hascii, filter_emoji_id hascii]

/-- C4 fails as stated: HTML entity unescaping re-exposes an entity, so a
second cleaning pass changes the result of the first (`&amp;amp;` cleans to
`&amp;`, which cleans to `&`). -/
theorem claim_C4_counterexample :
    clean_headline (.str (clean_headline (.str "&amp;amp;") {})) {} ≠
      clean_headline (.str "&amp;amp;") {} := by decide

/-- C4 amended: with default options, `clean_headline` is idempotent on
every ASCII string containing none of the characters `&`, `<`, `$`, `:`,
`.` — the characters through which one pass can expose a new removable
token (an HTML entity or tag, a ticker, or a URL) for the next pass.  On
such strings the pipeline reduces to the special-character filter followed
by whitespace collapsing and trimming, whose composite is idempotent. -/
theorem claim_C4_amended_idempotent_on_safe (s : String)
    (hsafe : ∀ c ∈ s.data, SafeChar c = true) :
    clean_headline (.str (clean_headline (.str s) {})) {} =
      clean_headline (.str s) {} := by
  have hguard : ∀ (u : String), u.data.all pyIsSpace = true →
      cleanStr {} u = "" := by
    intro u hu
    unfold cleanStr
    rw [if_pos hu]
  have hrun : ∀ (u : String), u.data.all pyIsSpace = false →
      cleanStr {} u = String.mk (runPipeline {} u.data) := by
    intro u hu
    unfold cleanStr
    rw [if_neg (by simp [hu])]
  show cleanStr {} (cleanStr {} s) = cleanStr {} s
  by_cases hsp : s.data.all pyIsSpace = true
  · rw [hguard s hsp]
    exact hguard "" rfl
  · have hsp2 : s.data.all pyIsSpace = false := by
      revert hsp
      cases s.data.all pyIsSpace <;> simp
    rw [hrun s hsp2, runPipeline_default hsafe]
    have hmem : ∀ c ∈ pyStrip (collapseWs (s.data.filter keepChar)),
        c ∈ s.data ∨ c = ' ' := by
      intro c hc
      have h1 : c ∈ collapseWs (s.data.filter keepChar) :=
        (pyStrip_part _).sublist.mem hc
      rcases collapseWs_chars h1 with h2 | h2
      · exact Or.inl (List.mem_of_mem_filter h2)
      · exact Or.inr h2
    have hrsafe : ∀ c ∈ pyStrip (collapseWs (s.data.filter keepChar)),
        SafeChar c = true := by
      intro c hc
      rcases hmem c hc with h | rfl
      · exact hsafe c h
      · decide
    have hrkeep : ∀ c ∈ pyStrip (collapseWs (s.data.filter keepChar)),
        keepChar c = true := by
      intro c hc
      have h1 : c ∈ collapseWs (s.data.filter keepChar) :=
        (pyStrip_part _).sublist.mem hc
      rcases collapseWs_chars h1 with h2 | rfl
      · exact List.of_mem_filter h2
      · decide
    cases hre : pyStrip (collapseWs (s.data.filter keepChar)) with
    | nil => exact hguard (String.mk []) rfl
    | cons c0 rt =>
      have hguard2 : (String.mk (c0 :: rt)).data.all pyIsSpace = false :=
        pyStrip_not_all_space hre
      rw [hrun (String.mk (c0 :: rt)) hguard2]
      show String.mk (runPipeline {} (c0 :: rt)) = String.mk (c0 :: rt)
      rw [← hre, runPipeline_default hrsafe,
        List.filter_eq_self.mpr hrkeep, (strip_collapse_fixed _).1,
        (strip_collapse_fixed _).2]

/-- Witness for the amended C4 at a concrete input. -/
theorem claim_C4_witness :
    clean_headline (.str (clean_headline (.str "  Fed  holds  rates ") {})) {} =
      clean_headline (.str "  Fed  holds  rates ") {} :=
  claim_C4_amended_idempotent_on_safe "  Fed  holds  rates " (by decide)
